import Mathlib

/-!
# Verification of the LensLingua history / identity store and AI client

Shallow embedding of the repository's persistence layer (`databaseService`
in the localStorage-backed service module), the AI response parser
(`parseAIResponse` in `src/services/aiService.ts`), the audio request
builder (`translateAudio` in `src/services/aiService.ts`) and the
pseudo-random id fallback (`generateId`).

JavaScript strings are modelled as `List Char` (called `JStr` below);
`String.prototype.trim` is modelled with `Char.isWhitespace` (space, tab,
CR, LF — the code points that occur in this application's data), and
`String.prototype.toLowerCase` with `Char.toLower` (ASCII case mapping,
exactly the behaviour of `toLowerCase` on the ASCII range used by emails
here).  `localStorage` cells are modelled by the outcome of reading and
`JSON.parse`-ing them, which is the only way the code observes them: a
cell is `missing` (key absent), `malformed` (JSON.parse throws),
`nonArray` (parses but `Array.isArray` is false) or `arr xs` (parses to an
array of records); writing `JSON.stringify` of an array yields the `arr`
cell with that array.  `new Date().toISOString()` / `new Date(s).getTime()`
round-trip through the stored timestamp string, so timestamps are modelled
by their millisecond value (`Nat`).  The nondeterministic `generateId` /
`Date.now` values are passed to `saveHistory` as explicit parameters.
-/

/-! ## Definitions: the shallow embedding -/

/-- JavaScript strings, modelled as lists of characters. -/
abbrev JStr := List Char

/-- Model of `String.prototype.trim`: drop whitespace from both ends. -/
def jsTrim (s : JStr) : JStr :=
  ((s.dropWhile Char.isWhitespace).reverse.dropWhile Char.isWhitespace).reverse

/-- Model of `String.prototype.toLowerCase` (ASCII range). -/
def jsToLower (s : JStr) : JStr :=
  s.map Char.toLower

/-- Model of `email.trim().toLowerCase()`, the normalisation applied throughout the
database service. -/
def normalizeEmail (s : JStr) : JStr :=
  jsToLower (jsTrim s)

/-- The action of ASCII lower-casing on code points (proof helper). -/
def lowN (n : Nat) : Nat := if 65 ≤ n ∧ n ≤ 90 then n + 32 else n

/-- The `'scan' | 'audio'` union of `HistoryItem.type` (`src/types.ts`). -/
inductive EntryType where
  | scan
  | audio
  deriving DecidableEq, Repr

/-- Embedding of `ExtractedItem` (`src/types.ts`).  The optional `allergens` field is
modelled as a (possibly empty) string. -/
structure ExtractedItem where
  originalText : JStr
  translatedText : JStr
  context : JStr
  allergens : JStr
  deriving DecidableEq, Repr

/-- Embedding of `HistoryItem` (`src/types.ts`).  The stored ISO timestamp string is
modelled by its millisecond value, which is what
`new Date(timestamp).getTime()` recovers from it. -/
structure HistoryItem where
  id : JStr
  email : JStr
  type : EntryType
  timestamp : Nat
  targetLanguage : JStr
  items : List ExtractedItem
  deriving DecidableEq, Repr

/-- Embedding of `UserRecord` (database service module). -/
structure UserRecord where
  email : JStr
  password : JStr
  deriving DecidableEq, Repr

/-- A `localStorage` cell as the code observes it after `JSON.parse`:
the key is absent, the value is malformed JSON, it parses to a non-array,
or it parses to an array of records.  `localStorage.setItem(key,
JSON.stringify(xs))` produces `arr xs`. -/
inductive Cell (α : Type) where
  | missing
  | malformed
  | nonArray
  | arr (records : List α)
  deriving DecidableEq, Repr

/-- Embedding of `databaseService.getRawHistory`: a missing key, malformed JSON and a
non-array value all degrade to `[]`. -/
def getRawHistory (cell : Cell HistoryItem) : List HistoryItem :=
  match cell with
  | .missing => []
  | .malformed => []
  | .nonArray => []
  | .arr records => records

/-- Embedding of `databaseService.getRawUsers`: same empty-collection recovery. -/
def getRawUsers (cell : Cell UserRecord) : List UserRecord :=
  match cell with
  | .missing => []
  | .malformed => []
  | .nonArray => []
  | .arr records => records

/-- Embedding of `databaseService.registerUser`.  `Except.error ()` models the thrown
`"An account with this email already exists."` error (the spec's
`DuplicateUserError`); `Except.ok` carries the users cell written by
`localStorage.setItem`. -/
def registerUser (cell : Cell UserRecord) (email password : JStr) :
    Except Unit (Cell UserRecord) :=
  let users := getRawUsers cell
  let normalizedEmail := normalizeEmail email
  if (users.find? (fun u => u.email == normalizedEmail)).isSome then
    .error ()
  else
    .ok (.arr (users ++ [⟨normalizedEmail, password⟩]))

/-- The users cell after `registerUser` returns or throws: a thrown
duplicate error leaves the store untouched. -/
def registerStore (cell : Cell UserRecord) (email password : JStr) : Cell UserRecord :=
  match registerUser cell email password with
  | .ok c => c
  | .error _ => cell

/-- Embedding of `databaseService.verifyUser`. -/
def verifyUser (cell : Cell UserRecord) (email password : JStr) : Bool :=
  let users := getRawUsers cell
  let normalizedEmail := normalizeEmail email
  match users.find? (fun u => u.email == normalizedEmail) with
  | some user => user.password == password
  | none => false

/-- Embedding of `databaseService.saveHistory`.  The value of the nondeterministic
`generateId()` call and the current time `Date.now` are explicit
parameters `newId` and `now`; the result is the returned id paired with
the updated history cell.  The `if (!email) return ''` guard fires exactly
for the empty string. -/
def saveHistory (cell : Cell HistoryItem) (email : JStr) (type : EntryType)
    (targetLanguage : JStr) (items : List ExtractedItem)
    (newId : JStr) (now : Nat) : JStr × Cell HistoryItem :=
  if email = [] then ([], cell)
  else
    let history := getRawHistory cell
    let normalizedEmail := normalizeEmail email
    let newEntry : HistoryItem :=
      { id := newId, email := normalizedEmail, type := type,
        timestamp := now, targetLanguage := targetLanguage, items := items }
    (newId, .arr (history ++ [newEntry]))

/-- The owner filter used by `getUserHistory`, `clearUserHistory` and
`deleteHistoryItem`: `(item.email || '').trim().toLowerCase() ===
normalizedEmail`.  The `|| ''` is the identity on the string-typed field. -/
def ownerMatches (normalizedEmail : JStr) (item : HistoryItem) : Bool :=
  normalizeEmail item.email == normalizedEmail

/-- The `.sort` comparator of `getUserHistory`:
`(a, b) => new Date(b.timestamp).getTime() - new Date(a.timestamp).getTime()`.
JavaScript's (stable) sort keeps `a` before `b` when the comparator is
`≤ 0`, i.e. when `b.timestamp ≤ a.timestamp`. -/
def newerFirst (a b : HistoryItem) : Bool :=
  b.timestamp ≤ a.timestamp

/-- Embedding of `databaseService.getUserHistory`: guard on the empty email, then
filter by normalised owner and stable-sort most-recent-first.  The store
itself is only read, never written. -/
def getUserHistory (cell : Cell HistoryItem) (email : JStr) : List HistoryItem :=
  if email = [] then []
  else
    let history := getRawHistory cell
    let normalizedEmail := normalizeEmail email
    (history.filter (ownerMatches normalizedEmail)).mergeSort newerFirst

/-- Embedding of `databaseService.clearUserHistory`: keep exactly the records whose
normalised owner differs from the normalised input, and write them back. -/
def clearUserHistory (cell : Cell HistoryItem) (email : JStr) : Cell HistoryItem :=
  if email = [] then cell
  else
    let history := getRawHistory cell
    let normalizedEmail := normalizeEmail email
    .arr (history.filter (fun item => !(ownerMatches normalizedEmail item)))

/-- Embedding of `databaseService.deleteHistoryItem`: `findIndex` of the first record
matching both the id and the normalised owner, then `splice(index, 1)`;
when nothing matches, nothing is written back. -/
def deleteHistoryItem (cell : Cell HistoryItem) (email itemId : JStr) : Cell HistoryItem :=
  if email = [] ∨ itemId = [] then cell
  else
    let history := getRawHistory cell
    let normalizedEmail := normalizeEmail email
    match history.findIdx? (fun item => item.id == itemId && ownerMatches normalizedEmail item) with
    | some index => .arr (history.eraseIdx index)
    | none => cell

/-- The match predicate of `deleteHistoryItem`'s `findIndex`. -/
def deleteMatch (email itemId : JStr) (item : HistoryItem) : Bool :=
  item.id == itemId && ownerMatches (normalizeEmail email) item

/-- One `saveHistory` call of a sequence: its arguments together with the
`generateId` and `Date.now` values drawn during the call. -/
structure SaveOp where
  email : JStr
  type : EntryType
  targetLanguage : JStr
  items : List ExtractedItem
  newId : JStr
  now : Nat
  deriving DecidableEq, Repr

/-- The history entry an (unguarded) `saveHistory` call appends for `op`. -/
def SaveOp.entry (op : SaveOp) : HistoryItem :=
  { id := op.newId, email := normalizeEmail op.email, type := op.type,
    timestamp := op.now, targetLanguage := op.targetLanguage, items := op.items }

/-- Run a sequence of `saveHistory` calls against a pristine store. -/
def applySaves (ops : List SaveOp) : Cell HistoryItem :=
  ops.foldl (fun c op =>
    (saveHistory c op.email op.type op.targetLanguage op.items op.newId op.now).2) .missing

/-- The `input_audio` part of the body sent by `translateAudio`:
`input_audio: { data: base64Audio, format: "wav" }`. -/
structure InputAudio where
  data : JStr
  format : JStr
  deriving DecidableEq, Repr

/-- The request body built by `translateAudio` (model id, prompt text,
audio part).  Headers and the network call itself are outside the
embedding. -/
structure AudioRequestBody where
  model : JStr
  prompt : JStr
  audio : InputAudio
  deriving DecidableEq, Repr

/-- The body construction of `translateAudio`
(`src/services/aiService.ts`, lines 75–101).  The audio part's `format`
field is the literal `"wav"`; the `mimeType` argument is never consulted. -/
def translateAudioBody (base64Audio mimeType targetLanguage : JStr) : AudioRequestBody :=
  { model := "google/gemini-2.0-flash-exp:free".toList,
    prompt := "Translate this audio into ".toList ++ targetLanguage ++
      ". Return ONLY JSON with an \x27items\x27 array.".toList,
    audio := { data := base64Audio, format := "wav".toList } }

/-- JavaScript `String.prototype.substring(a, b)`: the indices are swapped
when `a > b` and clamped to the string length. -/
def jsSubstring (s : JStr) (a b : Nat) : JStr :=
  (s.drop (min a b)).take (max a b - min a b)

/-- The non-`crypto.randomUUID` branch of `generateId`:
`Math.random().toString(36).substring(2, 15) +
Math.random().toString(36).substring(2, 15)`, as a function of the two
`toString(36)` renderings drawn from the pseudo-random source. -/
def generateIdFallback (r1 r2 : JStr) : JStr :=
  jsSubstring r1 2 15 ++ jsSubstring r2 2 15

/-- The result of `JSON.parse` as far as the code observes it. -/
inductive Json where
  | null
  | bool (b : Bool)
  | num (lexeme : JStr)
  | str (s : JStr)
  | arr (elems : List Json)
  | obj (fields : List (JStr × Json))

/-- Model of `s.replace(/pat/g, '')` for a literal pattern: remove every
non-overlapping occurrence, scanning left to right (fuel-indexed so the
kernel can evaluate it; `s.length` fuel always suffices). -/
def stripPatFuel (pat : JStr) : Nat → JStr → JStr
  | 0, s => s
  | _ + 1, [] => []
  | fuel + 1, c :: rest =>
    if pat ≠ [] ∧ pat.isPrefixOf (c :: rest) then
      stripPatFuel pat fuel ((c :: rest).drop pat.length)
    else
      c :: stripPatFuel pat fuel rest

/-- Model of `s.replace(/pat/g, '')` for a literal pattern. -/
def stripPat (pat s : JStr) : JStr := stripPatFuel pat s.length s

/-- Model of `String.prototype.indexOf` for a single character (`none` is `-1`). -/
def jsIndexOfChar (s : JStr) (c : Char) : Option Nat :=
  s.findIdx? (fun x => x == c)

/-- Model of `String.prototype.lastIndexOf` for a single character. -/
def jsLastIndexOfChar (s : JStr) (c : Char) : Option Nat :=
  match s.reverse.findIdx? (fun x => x == c) with
  | some i => some (s.length - 1 - i)
  | none => none

/-- A JSON short escape (`\" \\ \/ \b \f \n \r \t`). -/
def escChar : Char → Option Char
  | '"' => some '"'
  | '\\' => some '\\'
  | '/' => some '/'
  | 'b' => some (Char.ofNat 8)
  | 'f' => some (Char.ofNat 12)
  | 'n' => some '\n'
  | 'r' => some '\r'
  | 't' => some '\t'
  | _ => none

/-- Value of a hexadecimal digit. -/
def hexVal (c : Char) : Option Nat :=
  if c.isDigit then some (c.toNat - 48)
  else if 'a' ≤ c ∧ c ≤ 'f' then some (c.toNat - 87)
  else if 'A' ≤ c ∧ c ≤ 'F' then some (c.toNat - 55)
  else none

/-- Body of a JSON string, after the opening quote: characters up to the
closing quote, with escapes decoded; raw control characters are
rejected. -/
def parseStrBody : JStr → Option (JStr × JStr)
  | [] => none
  | c :: rest =>
    if c == '"' then some ([], rest)
    else if c == '\\' then
      match rest with
      | 'u' :: h1 :: h2 :: h3 :: h4 :: rest2 =>
        match hexVal h1, hexVal h2, hexVal h3, hexVal h4 with
        | some a, some b, some x, some d =>
          match parseStrBody rest2 with
          | some (str, rem) =>
            some (Char.ofNat (((a * 16 + b) * 16 + x) * 16 + d) :: str, rem)
          | none => none
        | _, _, _, _ => none
      | e :: rest2 =>
        match escChar e with
        | some ec =>
          match parseStrBody rest2 with
          | some (str, rem) => some (ec :: str, rem)
          | none => none
        | none => none
      | [] => none
    else if c.toNat < 32 then none
    else
      match parseStrBody rest with
      | some (str, rem) => some (c :: str, rem)
      | none => none

/-- Fractional part of a JSON number (possibly empty). -/
def parseFrac (s : JStr) : Option (JStr × JStr) :=
  match s with
  | '.' :: rest =>
    let ds := rest.takeWhile Char.isDigit
    if ds = [] then none else some ('.' :: ds, rest.dropWhile Char.isDigit)
  | _ => some ([], s)

/-- Exponent part of a JSON number (possibly empty). -/
def parseExp (s : JStr) : Option (JStr × JStr) :=
  match s with
  | c :: rest =>
    if c == 'e' || c == 'E' then
      let (sgn, r2) :=
        match rest with
        | '+' :: r => ((['+'] : JStr), r)
        | '-' :: r => ((['-'] : JStr), r)
        | _ => (([] : JStr), rest)
      let ds := r2.takeWhile Char.isDigit
      if ds = [] then none else some (c :: (sgn ++ ds), r2.dropWhile Char.isDigit)
    else some ([], s)
  | [] => some ([], [])

/-- A JSON number: `-? (0 | [1-9][0-9]*) (. [0-9]+)? ([eE][+-]?[0-9]+)?`. -/
def parseNum (s : JStr) : Option (Json × JStr) :=
  let (sign, s1) :=
    match s with
    | '-' :: rest => ((['-'] : JStr), rest)
    | _ => (([] : JStr), s)
  let intDigits := s1.takeWhile Char.isDigit
  let s2 := s1.dropWhile Char.isDigit
  if intDigits = [] then none
  else if 1 < intDigits.length ∧ intDigits.head? = some '0' then none
  else
    match parseFrac s2 with
    | none => none
    | some (frac, s3) =>
      match parseExp s3 with
      | none => none
      | some (ex, s4) => some (.num (sign ++ intDigits ++ frac ++ ex), s4)

mutual

/-- One JSON value, leading whitespace allowed; returns the rest of the
input. -/
def parseVal : Nat → JStr → Option (Json × JStr)
  | 0, _ => none
  | fuel + 1, s =>
    match s.dropWhile Char.isWhitespace with
    | [] => none
    | c :: rest =>
      if c == '\x7b' then
        match rest.dropWhile Char.isWhitespace with
        | '\x7d' :: rem => some (.obj [], rem)
        | _ =>
          match parseFields fuel rest with
          | some (fs, rem) => some (.obj fs, rem)
          | none => none
      else if c == '[' then
        match rest.dropWhile Char.isWhitespace with
        | ']' :: rem => some (.arr [], rem)
        | _ =>
          match parseElems fuel rest with
          | some (vs, rem) => some (.arr vs, rem)
          | none => none
      else if c == '"' then
        match parseStrBody rest with
        | some (str, rem) => some (.str str, rem)
        | none => none
      else if c == 'n' then
        if ("ull".toList).isPrefixOf rest then some (.null, rest.drop 3) else none
      else if c == 't' then
        if ("rue".toList).isPrefixOf rest then some (.bool true, rest.drop 3) else none
      else if c == 'f' then
        if ("alse".toList).isPrefixOf rest then some (.bool false, rest.drop 4) else none
      else
        parseNum (c :: rest)

/-- The non-empty element list of a JSON array, up to and including the
closing bracket. -/
def parseElems : Nat → JStr → Option (List Json × JStr)
  | 0, _ => none
  | fuel + 1, s =>
    match parseVal fuel s with
    | none => none
    | some (v, rem) =>
      match rem.dropWhile Char.isWhitespace with
      | ',' :: rest =>
        match parseElems fuel rest with
        | some (vs, rem2) => some (v :: vs, rem2)
        | none => none
      | ']' :: rest => some ([v], rest)
      | _ => none

/-- The non-empty field list of a JSON object, up to and including the
closing brace. -/
def parseFields : Nat → JStr → Option (List (JStr × Json) × JStr)
  | 0, _ => none
  | fuel + 1, s =>
    match s.dropWhile Char.isWhitespace with
    | '"' :: rest =>
      match parseStrBody rest with
      | some (key, rem) =>
        match rem.dropWhile Char.isWhitespace with
        | ':' :: rest2 =>
          match parseVal fuel rest2 with
          | some (v, rem2) =>
            match rem2.dropWhile Char.isWhitespace with
            | ',' :: rest3 =>
              match parseFields fuel rest3 with
              | some (fs, rem3) => some ((key, v) :: fs, rem3)
              | none => none
            | '\x7d' :: rest3 => some ([(key, v)], rest3)
            | _ => none
          | none => none
        | _ => none
      | none => none
    | _ => none

end

/-- Model of `JSON.parse`: one JSON value with nothing but whitespace around it;
`none` models a thrown `SyntaxError`. -/
def jsonParse (s : JStr) : Option Json :=
  match parseVal (2 * s.length + 2) s with
  | some (v, rem) => if rem.dropWhile Char.isWhitespace = [] then some v else none
  | none => none

/-- The fence-stripping and trimming step of `parseAIResponse`:
`content.replace(/BTBTBTjson/g, '').replace(/BTBTBT/g, '').trim()` (with
`BT` a backtick). -/
def cleanResponse (content : JStr) : JStr :=
  jsTrim (stripPat ("```".toList) (stripPat ("```json".toList) content))

/-- The substring step of `parseAIResponse`: locate the first `\x7b` and
the last `\x7d` and keep only that substring when both exist. -/
def extractTarget (cleanContent : JStr) : JStr :=
  match jsIndexOfChar cleanContent '\x7b', jsLastIndexOfChar cleanContent '\x7d' with
  | some a, some b => jsSubstring cleanContent a (b + 1)
  | _, _ => cleanContent

/-- Embedding of `parseAIResponse` (`src/services/aiService.ts`, lines 20–33): strip
fences, trim, cut to the first-`\x7b`-to-last-`\x7d` substring, then
`JSON.parse`; `none` models the thrown
`"AI response error. Please try again."`. -/
def parseAIResponse (content : JStr) : Option Json :=
  jsonParse (extractTarget (cleanResponse content))

/-! ## Theorems -/

theorem Char.toNat_ofNat_valid (n : Nat) (h : n.isValidChar) :
    (Char.ofNat n).toNat = n := by
  rw [Char.ofNat, dif_pos h]
  simp [Char.ofNatAux, Char.toNat, UInt32.toNat]

theorem lowN_lowN (n : Nat) : lowN (lowN n) = lowN n := by
  simp only [lowN]
  by_cases h : 65 ≤ n ∧ n ≤ 90
  · rw [if_pos h, if_neg (by omega)]
  · rw [if_neg h, if_neg h]

theorem toNat_toLower (c : Char) : (Char.toLower c).toNat = lowN c.toNat := by
  simp only [Char.toLower, lowN]
  split
  · exact Char.toNat_ofNat_valid _ (Or.inl (by omega))
  · rfl

theorem Char.toNat_inj' {c d : Char} (h : c.toNat = d.toNat) : c = d :=
  Char.eq_of_val_eq (UInt32.toNat.inj h)

theorem toLower_toLower (c : Char) :
    Char.toLower (Char.toLower c) = Char.toLower c := by
  apply Char.toNat_inj'
  rw [toNat_toLower, toNat_toLower, lowN_lowN]

theorem isWhitespace_iff_toNat (c : Char) :
    c.isWhitespace =
      (decide (c.toNat = 32) || decide (c.toNat = 9) ||
       decide (c.toNat = 13) || decide (c.toNat = 10)) := by
  have h32 : (c = ' ') ↔ c.toNat = 32 := ⟨fun h => by subst h; rfl, fun h => Char.toNat_inj' h⟩
  have h9 : (c = '\t') ↔ c.toNat = 9 := ⟨fun h => by subst h; rfl, fun h => Char.toNat_inj' h⟩
  have h13 : (c = '\r') ↔ c.toNat = 13 := ⟨fun h => by subst h; rfl, fun h => Char.toNat_inj' h⟩
  have h10 : (c = '\n') ↔ c.toNat = 10 := ⟨fun h => by subst h; rfl, fun h => Char.toNat_inj' h⟩
  simp only [Char.isWhitespace, decide_eq_decide.mpr h32, decide_eq_decide.mpr h9,
    decide_eq_decide.mpr h13, decide_eq_decide.mpr h10]

theorem isWhitespace_toLower (c : Char) :
    (Char.toLower c).isWhitespace = c.isWhitespace := by
  rw [isWhitespace_iff_toNat, isWhitespace_iff_toNat, toNat_toLower]
  rw [Bool.eq_iff_iff]
  simp only [Bool.or_eq_true, decide_eq_true_eq, lowN]
  split <;> omega

theorem head?_dropWhile_not (p : α → Bool) :
    ∀ (l : List α) (c : α), (l.dropWhile p).head? = some c → p c = false := by
  intro l
  induction l with
  | nil => intro c h; simp at h
  | cons x xs ih =>
    intro c h
    rw [List.dropWhile_cons] at h
    by_cases hx : p x
    · rw [if_pos hx] at h
      exact ih c h
    · rw [if_neg hx] at h
      simp at h
      subst h
      simpa using hx

theorem dropWhile_eq_self_of_head? (p : α → Bool) (l : List α)
    (h : ∀ c, l.head? = some c → p c = false) : l.dropWhile p = l := by
  cases l with
  | nil => rfl
  | cons x xs =>
    rw [List.dropWhile_cons, if_neg]
    rw [h x rfl]
    simp

theorem dropWhile_idem (p : α → Bool) (l : List α) :
    (l.dropWhile p).dropWhile p = l.dropWhile p :=
  dropWhile_eq_self_of_head? p _ (head?_dropWhile_not p l)

theorem dropWhile_jsTrim (s : JStr) :
    (jsTrim s).dropWhile Char.isWhitespace = jsTrim s := by
  apply dropWhile_eq_self_of_head?
  intro c hc
  rw [jsTrim] at hc
  rw [List.head?_reverse] at hc
  set u := (s.dropWhile Char.isWhitespace).reverse.dropWhile Char.isWhitespace with hu
  have hsuff : u <:+ (s.dropWhile Char.isWhitespace).reverse := List.dropWhile_suffix _
  obtain ⟨t, ht⟩ := hsuff
  have hune : u ≠ [] := by
    intro h
    rw [h] at hc
    simp at hc
  have : ((s.dropWhile Char.isWhitespace).reverse).getLast? = some c := by
    rw [← ht, List.getLast?_append]
    rw [hc]
    rfl
  rw [List.getLast?_reverse] at this
  exact head?_dropWhile_not _ s c this

theorem reverse_jsTrim_eq (s : JStr) :
    (jsTrim s).reverse = (s.dropWhile Char.isWhitespace).reverse.dropWhile Char.isWhitespace := by
  rw [jsTrim, List.reverse_reverse]

theorem jsTrim_idem (s : JStr) : jsTrim (jsTrim s) = jsTrim s := by
  conv_lhs => rw [jsTrim, dropWhile_jsTrim, reverse_jsTrim_eq, dropWhile_idem]
  rw [← reverse_jsTrim_eq, List.reverse_reverse]

theorem jsTrim_jsToLower (s : JStr) :
    jsTrim (jsToLower s) = jsToLower (jsTrim s) := by
  have hcomp : (Char.isWhitespace ∘ Char.toLower) = Char.isWhitespace := by
    funext c
    exact isWhitespace_toLower c
  simp only [jsTrim, jsToLower, List.dropWhile_map, hcomp, ← List.map_reverse]

theorem jsToLower_idem (s : JStr) : jsToLower (jsToLower s) = jsToLower s := by
  rw [jsToLower, jsToLower, List.map_map]
  congr 1
  funext c
  exact toLower_toLower c

/-- Email normalisation is idempotent: the stored (already normalised) owner
email re-normalises to itself when compared by the query functions. -/
theorem normalizeEmail_idem (s : JStr) :
    normalizeEmail (normalizeEmail s) = normalizeEmail s := by
  rw [normalizeEmail, normalizeEmail, jsTrim_jsToLower, jsTrim_idem, jsToLower_idem]

/-- C10: every history-store operation given an empty email string is a
no-op at the public interface: `saveHistory` returns the empty string and
appends no record, `getUserHistory` returns the empty sequence, and
`clearUserHistory` and `deleteHistoryItem` (the latter also for an empty
id) leave the persisted collection unchanged. -/
theorem empty_email_operations_noop (cell : Cell HistoryItem) (type : EntryType)
    (targetLanguage : JStr) (items : List ExtractedItem) (newId : JStr) (now : Nat)
    (email itemId : JStr) :
    saveHistory cell [] type targetLanguage items newId now = ([], cell) ∧
    getUserHistory cell [] = [] ∧
    clearUserHistory cell [] = cell ∧
    deleteHistoryItem cell [] itemId = cell ∧
    deleteHistoryItem cell email [] = cell := by
  refine ⟨rfl, rfl, rfl, rfl, ?_⟩
  rw [deleteHistoryItem, if_pos (Or.inr rfl)]

/-- C5: when the raw value under the history or users key is missing,
malformed JSON, or parses to a non-array, every read operation
(`getUserHistory`, `getRawHistory`, `getRawUsers`, `verifyUser`) returns
an empty result (`[]`, respectively `false`) rather than propagating a
parse error. -/
theorem corrupt_storage_reads_empty (email password : JStr) :
    getRawHistory .missing = [] ∧ getRawHistory .malformed = [] ∧
    getRawHistory .nonArray = [] ∧
    getUserHistory .missing email = [] ∧ getUserHistory .malformed email = [] ∧
    getUserHistory .nonArray email = [] ∧
    getRawUsers .missing = [] ∧ getRawUsers .malformed = [] ∧
    getRawUsers .nonArray = [] ∧
    verifyUser .missing email password = false ∧
    verifyUser .malformed email password = false ∧
    verifyUser .nonArray email password = false := by
  refine ⟨rfl, rfl, rfl, ?_, ?_, ?_, rfl, rfl, rfl, rfl, rfl, rfl⟩ <;>
    simp [getUserHistory, getRawHistory]

/-- Counterexample to C1 as stated: with the empty input email, a record
whose normalised owner email equals the normalised input (here a record
owned by the empty string, as `saveHistory` produces for a whitespace-only
email) is NOT removed — the `if (!email) return` guard makes the call a
no-op. -/
theorem clear_user_history_empty_email_cex :
    normalizeEmail ([] : JStr) = normalizeEmail ([] : JStr) ∧
    (⟨('i' :: 'd' :: []), [], .scan, 0, [], []⟩ : HistoryItem).email = [] ∧
    clearUserHistory (.arr [⟨('i' :: 'd' :: []), [], .scan, 0, [], []⟩]) [] =
      .arr [⟨('i' :: 'd' :: []), [], .scan, 0, [], []⟩] := by
  exact ⟨rfl, rfl, rfl⟩

/-- C1 (amended: for every non-empty email): `clearUserHistory` removes
all records whose normalised owner email equals the normalised input
email, and every record belonging to any other user is left unchanged
(same multiplicity) and in its original relative order (the survivors form
a sublist of the original collection). -/
theorem clear_user_history_frame (cell : Cell HistoryItem) (email : JStr)
    (hne : email ≠ []) :
    (∀ x ∈ getRawHistory (clearUserHistory cell email),
        normalizeEmail x.email ≠ normalizeEmail email) ∧
    List.Sublist (getRawHistory (clearUserHistory cell email)) (getRawHistory cell) ∧
    ∀ x : HistoryItem, normalizeEmail x.email ≠ normalizeEmail email →
      (getRawHistory (clearUserHistory cell email)).count x =
        (getRawHistory cell).count x := by
  rw [clearUserHistory, if_neg hne]
  simp only [getRawHistory]
  refine ⟨?_, List.filter_sublist _, ?_⟩
  · intro x hx
    rw [List.mem_filter] at hx
    have := hx.2
    simp only [ownerMatches, Bool.not_eq_true', beq_eq_false_iff_ne, ne_eq] at this
    exact this
  · intro x hx
    apply List.count_filter
    simp only [ownerMatches, Bool.not_eq_true', beq_eq_false_iff_ne, ne_eq]
    exact hx

/-- Witness for `clear_user_history_frame` at a concrete store with two
owners. -/
theorem clear_user_history_frame_witness :
    (∀ x ∈ getRawHistory (clearUserHistory
        (.arr [⟨('1' :: []), ('a' :: '@' :: 'x' :: []), .scan, 5, [], []⟩,
               ⟨('2' :: []), ('b' :: '@' :: 'y' :: []), .audio, 7, [], []⟩])
        ('a' :: '@' :: 'x' :: [])),
        normalizeEmail x.email ≠ normalizeEmail ('a' :: '@' :: 'x' :: [])) ∧
    List.Sublist (getRawHistory (clearUserHistory
        (.arr [⟨('1' :: []), ('a' :: '@' :: 'x' :: []), .scan, 5, [], []⟩,
               ⟨('2' :: []), ('b' :: '@' :: 'y' :: []), .audio, 7, [], []⟩])
        ('a' :: '@' :: 'x' :: [])))
      (getRawHistory (.arr [⟨('1' :: []), ('a' :: '@' :: 'x' :: []), .scan, 5, [], []⟩,
               ⟨('2' :: []), ('b' :: '@' :: 'y' :: []), .audio, 7, [], []⟩])) ∧
    ∀ x : HistoryItem,
      normalizeEmail x.email ≠ normalizeEmail ('a' :: '@' :: 'x' :: []) →
      (getRawHistory (clearUserHistory
        (.arr [⟨('1' :: []), ('a' :: '@' :: 'x' :: []), .scan, 5, [], []⟩,
               ⟨('2' :: []), ('b' :: '@' :: 'y' :: []), .audio, 7, [], []⟩])
        ('a' :: '@' :: 'x' :: []))).count x =
      (getRawHistory (.arr [⟨('1' :: []), ('a' :: '@' :: 'x' :: []), .scan, 5, [], []⟩,
               ⟨('2' :: []), ('b' :: '@' :: 'y' :: []), .audio, 7, [], []⟩])).count x :=
  clear_user_history_frame _ _ (by decide)

theorem filter_not_eq_self_of_findIdx?_eq_none (p : α → Bool) (l : List α)
    (h : l.findIdx? p = none) : l.filter (fun x => !p x) = l := by
  rw [List.filter_eq_self]
  intro a ha
  have := List.findIdx?_eq_none_iff.mp h a ha
  simp [this]

theorem eraseIdx_findIdx?_eq_filter_not (p : α → Bool) :
    ∀ (l : List α) (i : Nat), l.countP p ≤ 1 → l.findIdx? p = some i →
      l.eraseIdx i = l.filter (fun x => !p x) := by
  intro l
  induction l with
  | nil => intro i _ h; simp at h
  | cons x xs ih =>
    intro i hcount hfind
    rw [List.findIdx?_cons] at hfind
    by_cases hx : p x
    · rw [if_pos hx] at hfind
      obtain rfl : (0 : Nat) = i := by simpa using hfind
      rw [List.eraseIdx_cons_zero, List.filter_cons_of_neg (by simp [hx])]
      have h0 : xs.countP p = 0 := by
        rw [List.countP_cons_of_pos _ _ hx] at hcount
        omega
      symm
      rw [List.filter_eq_self]
      intro a ha
      simp [List.countP_eq_zero.mp h0 a ha]
    · rw [if_neg hx, List.findIdx?_succ] at hfind
      obtain ⟨j, hj, rfl⟩ := Option.map_eq_some'.mp hfind
      rw [List.eraseIdx_cons_succ, List.filter_cons_of_pos (by simp [hx])]
      have hc : xs.countP p ≤ 1 := by
        rw [List.countP_cons_of_neg _ _ hx] at hcount
        exact hcount
      rw [ih j hc hj]

theorem deleteHistoryItem_eq (cell : Cell HistoryItem) (email itemId : JStr)
    (hne : email ≠ []) (hni : itemId ≠ []) :
    deleteHistoryItem cell email itemId =
      match (getRawHistory cell).findIdx? (deleteMatch email itemId) with
      | some index => .arr ((getRawHistory cell).eraseIdx index)
      | none => cell := by
  rw [deleteHistoryItem, if_neg (by simp [hne, hni])]
  rfl

/-- Counterexample to C3 as stated (three concrete violations): with two
records sharing the same id and owner, deleting twice removes both, so the
second call is observable; and with an empty email or an empty id the
guard makes the call a no-op even though a matching record exists. -/
theorem delete_history_item_cex :
    (deleteHistoryItem (deleteHistoryItem
        (.arr [⟨('x' :: []), ('a' :: []), .scan, 0, [], []⟩,
               ⟨('x' :: []), ('a' :: []), .scan, 1, [], []⟩])
        ('a' :: []) ('x' :: [])) ('a' :: []) ('x' :: []) ≠
      deleteHistoryItem
        (.arr [⟨('x' :: []), ('a' :: []), .scan, 0, [], []⟩,
               ⟨('x' :: []), ('a' :: []), .scan, 1, [], []⟩])
        ('a' :: []) ('x' :: [])) ∧
    (deleteHistoryItem (.arr [⟨('x' :: []), [], .scan, 0, [], []⟩]) [] ('x' :: []) =
      .arr [⟨('x' :: []), [], .scan, 0, [], []⟩]) ∧
    (deleteHistoryItem (.arr [⟨[], ('a' :: []), .scan, 0, [], []⟩]) ('a' :: []) [] =
      .arr [⟨[], ('a' :: []), .scan, 0, [], []⟩]) := by
  refine ⟨by decide, rfl, ?_⟩
  rw [deleteHistoryItem, if_pos (Or.inr rfl)]

/-- C3 (amended: for non-empty email and id, over collections in which at
most one record matches both the id and the normalised owner — as is the
case when ids are unique): `deleteHistoryItem` is idempotent, removes
exactly the record matching both the id and the normalised owner email,
and when no such record exists it is a silent no-op leaving every record
intact. -/
theorem delete_history_item_spec (cell : Cell HistoryItem) (email itemId : JStr)
    (hne : email ≠ []) (hni : itemId ≠ [])
    (huniq : (getRawHistory cell).countP (deleteMatch email itemId) ≤ 1) :
    deleteHistoryItem (deleteHistoryItem cell email itemId) email itemId =
      deleteHistoryItem cell email itemId ∧
    getRawHistory (deleteHistoryItem cell email itemId) =
      (getRawHistory cell).filter (fun item => !deleteMatch email itemId item) ∧
    ((∀ x ∈ getRawHistory cell,
        ¬(x.id = itemId ∧ normalizeEmail x.email = normalizeEmail email)) →
      deleteHistoryItem cell email itemId = cell) := by
  have hmain : getRawHistory (deleteHistoryItem cell email itemId) =
      (getRawHistory cell).filter (fun item => !deleteMatch email itemId item) := by
    rw [deleteHistoryItem_eq cell email itemId hne hni]
    rcases hfind : (getRawHistory cell).findIdx? (deleteMatch email itemId) with _ | i
    · exact (filter_not_eq_self_of_findIdx?_eq_none _ _ hfind).symm
    · simp only [getRawHistory]
      exact eraseIdx_findIdx?_eq_filter_not _ _ i huniq hfind
  refine ⟨?_, hmain, ?_⟩
  · rw [deleteHistoryItem_eq (deleteHistoryItem cell email itemId) email itemId hne hni]
    have hnone : (getRawHistory (deleteHistoryItem cell email itemId)).findIdx?
        (deleteMatch email itemId) = none := by
      rw [List.findIdx?_eq_none_iff]
      intro x hx
      rw [hmain, List.mem_filter] at hx
      simpa using hx.2
    rw [hnone]
  · intro hnomatch
    rw [deleteHistoryItem_eq cell email itemId hne hni]
    have hnone : (getRawHistory cell).findIdx? (deleteMatch email itemId) = none := by
      rw [List.findIdx?_eq_none_iff]
      intro x hx
      have := hnomatch x hx
      simp only [deleteMatch, ownerMatches, Bool.and_eq_false_iff, beq_eq_false_iff_ne, ne_eq]
      by_cases hid : x.id = itemId
      · right
        intro hmail
        exact this ⟨hid, hmail⟩
      · left
        exact hid
    rw [hnone]

/-- Witness for `delete_history_item_spec` at a concrete two-record store. -/
theorem delete_history_item_spec_witness :
    deleteHistoryItem (deleteHistoryItem
        (.arr [⟨('1' :: []), ('a' :: []), .scan, 5, [], []⟩,
               ⟨('2' :: []), ('b' :: []), .audio, 7, [], []⟩])
        ('a' :: []) ('1' :: [])) ('a' :: []) ('1' :: []) =
      deleteHistoryItem
        (.arr [⟨('1' :: []), ('a' :: []), .scan, 5, [], []⟩,
               ⟨('2' :: []), ('b' :: []), .audio, 7, [], []⟩])
        ('a' :: []) ('1' :: []) ∧
    getRawHistory (deleteHistoryItem
        (.arr [⟨('1' :: []), ('a' :: []), .scan, 5, [], []⟩,
               ⟨('2' :: []), ('b' :: []), .audio, 7, [], []⟩])
        ('a' :: []) ('1' :: [])) =
      (getRawHistory (.arr [⟨('1' :: []), ('a' :: []), .scan, 5, [], []⟩,
               ⟨('2' :: []), ('b' :: []), .audio, 7, [], []⟩] :
          Cell HistoryItem)).filter
        (fun item => !deleteMatch ('a' :: []) ('1' :: []) item) ∧
    ((∀ x ∈ getRawHistory (.arr [⟨('1' :: []), ('a' :: []), .scan, 5, [], []⟩,
               ⟨('2' :: []), ('b' :: []), .audio, 7, [], []⟩] :
          Cell HistoryItem),
        ¬(x.id = ('1' :: []) ∧ normalizeEmail x.email = normalizeEmail ('a' :: []))) →
      deleteHistoryItem
        (.arr [⟨('1' :: []), ('a' :: []), .scan, 5, [], []⟩,
               ⟨('2' :: []), ('b' :: []), .audio, 7, [], []⟩])
        ('a' :: []) ('1' :: []) =
      .arr [⟨('1' :: []), ('a' :: []), .scan, 5, [], []⟩,
            ⟨('2' :: []), ('b' :: []), .audio, 7, [], []⟩]) :=
  delete_history_item_spec _ _ _ (by decide) (by decide) (by decide)

/-- C7: starting from a pristine users store, two registrations with
distinct normalised emails both succeed (each persisted under the trimmed,
lower-cased email); re-registering any email with the same normalisation
as the first (differing only by case or surrounding whitespace) throws the
duplicate-user error and leaves the stored collection unchanged; and in
general, registering an email whose normalisation is not yet present
appends exactly the new normalised record. -/
theorem register_user_contract (e1 p1 e2 p2 e3 p3 e p : JStr)
    (users : List UserRecord)
    (hdist : normalizeEmail e1 ≠ normalizeEmail e2)
    (hdup : normalizeEmail e3 = normalizeEmail e1)
    (hfresh : ∀ u ∈ users, u.email ≠ normalizeEmail e) :
    registerUser .missing e1 p1 = .ok (.arr [⟨normalizeEmail e1, p1⟩]) ∧
    registerUser (.arr [⟨normalizeEmail e1, p1⟩]) e2 p2 =
      .ok (.arr [⟨normalizeEmail e1, p1⟩, ⟨normalizeEmail e2, p2⟩]) ∧
    registerUser (.arr [⟨normalizeEmail e1, p1⟩, ⟨normalizeEmail e2, p2⟩]) e3 p3 =
      .error () ∧
    registerStore (.arr [⟨normalizeEmail e1, p1⟩, ⟨normalizeEmail e2, p2⟩]) e3 p3 =
      .arr [⟨normalizeEmail e1, p1⟩, ⟨normalizeEmail e2, p2⟩] ∧
    registerUser (.arr users) e p = .ok (.arr (users ++ [⟨normalizeEmail e, p⟩])) := by
  have hthird : registerUser (.arr [⟨normalizeEmail e1, p1⟩, ⟨normalizeEmail e2, p2⟩]) e3 p3 =
      .error () := by
    simp only [registerUser, getRawUsers]
    rw [List.find?_cons_of_pos _ (by simp [hdup])]
    rfl
  refine ⟨?_, ?_, hthird, ?_, ?_⟩
  · simp [registerUser, getRawUsers]
  · simp only [registerUser, getRawUsers]
    rw [List.find?_cons_of_neg _ (by simp only [beq_iff_eq]; exact fun h => hdist h)]
    simp
  · rw [registerStore, hthird]
  · have hnone : users.find? (fun u => u.email == normalizeEmail e) = none := by
      apply List.find?_eq_none.mpr
      intro x hx
      simp only [beq_iff_eq]
      exact hfresh x hx
    simp [registerUser, getRawUsers, hnone]

/-- Witness for `register_user_contract` at the spec's scenario inputs:
register `a@x.com/p1`, then `b@y.com/p2`, then the case-differing
`A@X.com`; plus a fresh registration into an empty collection. -/
theorem register_user_contract_witness :
    registerUser .missing ("a@x.com".toList) ("p1".toList) =
      .ok (.arr [⟨normalizeEmail ("a@x.com".toList), "p1".toList⟩]) ∧
    registerUser (.arr [⟨normalizeEmail ("a@x.com".toList), "p1".toList⟩])
        ("b@y.com".toList) ("p2".toList) =
      .ok (.arr [⟨normalizeEmail ("a@x.com".toList), "p1".toList⟩,
                 ⟨normalizeEmail ("b@y.com".toList), "p2".toList⟩]) ∧
    registerUser (.arr [⟨normalizeEmail ("a@x.com".toList), "p1".toList⟩,
                 ⟨normalizeEmail ("b@y.com".toList), "p2".toList⟩])
        ("A@X.com".toList) ("p3".toList) = .error () ∧
    registerStore (.arr [⟨normalizeEmail ("a@x.com".toList), "p1".toList⟩,
                 ⟨normalizeEmail ("b@y.com".toList), "p2".toList⟩])
        ("A@X.com".toList) ("p3".toList) =
      .arr [⟨normalizeEmail ("a@x.com".toList), "p1".toList⟩,
            ⟨normalizeEmail ("b@y.com".toList), "p2".toList⟩] ∧
    registerUser (.arr []) ("c@z.com".toList) ("p4".toList) =
      .ok (.arr ([] ++ [⟨normalizeEmail ("c@z.com".toList), "p4".toList⟩])) :=
  register_user_contract _ _ _ _ _ _ _ _ _ (by decide) (by decide) (by decide)

/-- Counterexample to C4 as stated: with the empty email, `saveHistory`
returns `''` without appending, and the immediate `getUserHistory` is
empty, so no item with the saved fields can be found. -/
theorem save_then_list_empty_email_cex :
    ¬ ∃ x ∈ getUserHistory
        (saveHistory .missing [] .scan ('f' :: 'r' :: [])
          [⟨('o' :: []), ('t' :: []), ('c' :: []), []⟩] ('i' :: []) 0).2 [],
      x.id = (saveHistory .missing [] .scan ('f' :: 'r' :: [])
          [⟨('o' :: []), ('t' :: []), ('c' :: []), []⟩] ('i' :: []) 0).1 ∧
      x.items = [⟨('o' :: []), ('t' :: []), ('c' :: []), []⟩] ∧
      x.targetLanguage = ('f' :: 'r' :: []) ∧ x.type = .scan := by
  decide

/-- C4 (amended: for every non-empty email): calling `saveHistory` and
then immediately `getUserHistory` on the same email yields a sequence
containing an item whose id equals the id returned by the save and whose
`items`, `targetLanguage` and `type` fields equal the arguments passed. -/
theorem save_then_list_roundtrip (cell : Cell HistoryItem) (email : JStr)
    (type : EntryType) (targetLanguage : JStr) (items : List ExtractedItem)
    (newId : JStr) (now : Nat) (hne : email ≠ []) :
    ∃ x ∈ getUserHistory
        (saveHistory cell email type targetLanguage items newId now).2 email,
      x.id = (saveHistory cell email type targetLanguage items newId now).1 ∧
      x.items = items ∧ x.targetLanguage = targetLanguage ∧ x.type = type := by
  refine ⟨{ id := newId, email := normalizeEmail email, type := type,
            timestamp := now, targetLanguage := targetLanguage, items := items },
          ?_, ?_, rfl, rfl, rfl⟩
  · rw [getUserHistory, if_neg hne]
    rw [List.mem_mergeSort]
    apply List.mem_filter.mpr
    constructor
    · rw [saveHistory, if_neg hne]
      simp only [getRawHistory]
      exact List.mem_append_right _ (List.mem_singleton_self _)
    · simp [ownerMatches, normalizeEmail_idem]
  · rw [saveHistory, if_neg hne]

/-- Witness for `save_then_list_roundtrip` at a concrete save. -/
theorem save_then_list_roundtrip_witness :
    ∃ x ∈ getUserHistory
        (saveHistory .missing ('a' :: []) .audio ('e' :: 'n' :: [])
          [⟨('o' :: []), ('t' :: []), ('c' :: []), []⟩] ('9' :: []) 3).2 ('a' :: []),
      x.id = (saveHistory .missing ('a' :: []) .audio ('e' :: 'n' :: [])
          [⟨('o' :: []), ('t' :: []), ('c' :: []), []⟩] ('9' :: []) 3).1 ∧
      x.items = [⟨('o' :: []), ('t' :: []), ('c' :: []), []⟩] ∧
      x.targetLanguage = ('e' :: 'n' :: []) ∧ x.type = .audio :=
  save_then_list_roundtrip _ _ _ _ _ _ _ (by decide)

theorem getRawHistory_foldl_saves (ops : List SaveOp) :
    ∀ cell : Cell HistoryItem,
      getRawHistory (ops.foldl (fun c op =>
          (saveHistory c op.email op.type op.targetLanguage op.items op.newId op.now).2) cell) =
        getRawHistory cell ++
          ops.filterMap (fun op => if op.email = [] then none else some op.entry) := by
  induction ops with
  | nil => intro cell; simp
  | cons op ops ih =>
    intro cell
    rw [List.foldl_cons, ih, List.filterMap_cons]
    by_cases hop : op.email = []
    · simp [saveHistory, hop]
    · simp [saveHistory, hop, getRawHistory, SaveOp.entry]

theorem filter_owner_filterMap (email : JStr) (ops : List SaveOp) :
    (ops.filterMap (fun op => if op.email = [] then none else some op.entry)).filter
        (ownerMatches (normalizeEmail email)) =
      (ops.filter (fun op => !(op.email == ([] : JStr)) &&
          (normalizeEmail op.email == normalizeEmail email))).map SaveOp.entry := by
  induction ops with
  | nil => rfl
  | cons op ops ih =>
    rw [List.filterMap_cons, List.filter_cons]
    by_cases hop : op.email = []
    · simp only [hop, if_pos rfl]
      simpa using ih
    · by_cases hmatch : normalizeEmail op.email = normalizeEmail email
      · rw [if_neg hop]
        rw [List.filter_cons_of_pos (by simp [ownerMatches, SaveOp.entry, normalizeEmail_idem, hmatch])]
        rw [ih]
        have hq : (!(op.email == ([] : JStr)) &&
            (normalizeEmail op.email == normalizeEmail email)) = true := by
          simp [hop, hmatch]
        rw [if_pos hq, List.map_cons]
      · rw [if_neg hop]
        rw [List.filter_cons_of_neg (by simp [ownerMatches, SaveOp.entry, normalizeEmail_idem, hmatch])]
        rw [ih]
        have hq : (!(op.email == ([] : JStr)) &&
            (normalizeEmail op.email == normalizeEmail email)) = false := by
          simp [hop, hmatch]
        rw [if_neg (by rw [hq]; simp)]

theorem newerFirst_trans (a b c : HistoryItem) :
    newerFirst a b → newerFirst b c → newerFirst a c := by
  simp only [newerFirst, decide_eq_true_eq]
  omega

theorem newerFirst_total (a b : HistoryItem) :
    newerFirst a b || newerFirst b a := by
  simp only [newerFirst, Bool.or_eq_true, decide_eq_true_eq]
  omega

/-- C2 (amended: for every non-empty query email): after any sequence of
`saveHistory` calls on a pristine store, `getUserHistory email` is a
permutation of exactly the entries saved under the normalised email (in
particular it contains nothing else), it is sorted by timestamp descending
(most recent first), and every returned record's normalised owner is the
normalised query email.  The underlying store is only read: the model's
`getUserHistory` consumes the cell and returns a fresh list. -/
theorem list_for_user_exact_sorted (ops : List SaveOp) (email : JStr)
    (hne : email ≠ []) :
    (getUserHistory (applySaves ops) email).Perm
      ((ops.filter (fun op => !(op.email == ([] : JStr)) &&
          (normalizeEmail op.email == normalizeEmail email))).map SaveOp.entry) ∧
    (getUserHistory (applySaves ops) email).Pairwise
      (fun a b => b.timestamp ≤ a.timestamp) ∧
    ∀ x ∈ getUserHistory (applySaves ops) email,
      normalizeEmail x.email = normalizeEmail email := by
  have hget : getUserHistory (applySaves ops) email =
      ((ops.filter (fun op => !(op.email == ([] : JStr)) &&
          (normalizeEmail op.email == normalizeEmail email))).map SaveOp.entry).mergeSort
        newerFirst := by
    rw [getUserHistory, if_neg hne, applySaves, getRawHistory_foldl_saves]
    rw [show getRawHistory .missing = [] from rfl, List.nil_append]
    show (List.filter (ownerMatches (normalizeEmail email))
        (List.filterMap (fun op => if op.email = [] then none else some op.entry) ops)).mergeSort
        newerFirst = _
    rw [filter_owner_filterMap]
  refine ⟨?_, ?_, ?_⟩
  · rw [hget]
    exact List.mergeSort_perm _ _
  · rw [hget]
    apply List.Pairwise.imp ?_ (List.sorted_mergeSort newerFirst_trans newerFirst_total _)
    intro a b h
    simpa [newerFirst] using h
  · intro x hx
    rw [hget, List.mem_mergeSort] at hx
    obtain ⟨op, hop, rfl⟩ := List.mem_map.mp hx
    have hq := (List.mem_filter.mp hop).2
    simp only [Bool.and_eq_true, beq_iff_eq] at hq
    rw [SaveOp.entry]
    simpa [normalizeEmail_idem] using hq.2

/-- Witness for `list_for_user_exact_sorted`: two users interleave three
saves; the query returns user `a`'s two records, newest first. -/
theorem list_for_user_exact_sorted_witness :
    (getUserHistory (applySaves
        [⟨('a' :: []), .scan, [], [], ('1' :: []), 5⟩,
         ⟨('b' :: []), .audio, [], [], ('2' :: []), 6⟩,
         ⟨('A' :: []), .audio, [], [], ('3' :: []), 9⟩]) ('a' :: [])).Perm
      (([⟨('a' :: []), .scan, [], [], ('1' :: []), 5⟩,
         ⟨('b' :: []), .audio, [], [], ('2' :: []), 6⟩,
         ⟨('A' :: []), .audio, [], [], ('3' :: []), 9⟩].filter
          (fun op => !(op.email == ([] : JStr)) &&
            (normalizeEmail op.email == normalizeEmail ('a' :: [])))).map SaveOp.entry) ∧
    (getUserHistory (applySaves
        [⟨('a' :: []), .scan, [], [], ('1' :: []), 5⟩,
         ⟨('b' :: []), .audio, [], [], ('2' :: []), 6⟩,
         ⟨('A' :: []), .audio, [], [], ('3' :: []), 9⟩]) ('a' :: [])).Pairwise
      (fun a b => b.timestamp ≤ a.timestamp) ∧
    ∀ x ∈ getUserHistory (applySaves
        [⟨('a' :: []), .scan, [], [], ('1' :: []), 5⟩,
         ⟨('b' :: []), .audio, [], [], ('2' :: []), 6⟩,
         ⟨('A' :: []), .audio, [], [], ('3' :: []), 9⟩]) ('a' :: []),
      normalizeEmail x.email = normalizeEmail ('a' :: []) :=
  list_for_user_exact_sorted _ _ (by decide)

/-- Counterexample to C2 as stated: a save under the whitespace-only email
`" "` stores a record whose normalised owner is the empty string, yet the
query with the (already normalised) empty email returns nothing, because
of the `if (!email) return []` guard. -/
theorem list_for_user_empty_email_cex :
    getRawHistory (applySaves [⟨(' ' :: []), .scan, [], [], ('1' :: []), 0⟩]) ≠ [] ∧
    (∀ x ∈ getRawHistory (applySaves [⟨(' ' :: []), .scan, [], [], ('1' :: []), 0⟩]),
        normalizeEmail x.email = normalizeEmail []) ∧
    getUserHistory (applySaves [⟨(' ' :: []), .scan, [], [], ('1' :: []), 0⟩]) [] = [] := by
  decide

/-- C8 fails on the code: for every payload, mimeType and language the
request's `input_audio.format` is the hardcoded `"wav"`.  In particular
for the recording mimeType the application actually passes
(`audio/webm`, App.tsx) the upstream service is told `"wav"`, not a
format derived from the mimeType. -/
theorem translate_audio_format_hardcoded (base64Audio mimeType targetLanguage : JStr) :
    (translateAudioBody base64Audio mimeType targetLanguage).audio.format = "wav".toList ∧
    (translateAudioBody base64Audio ("audio/webm".toList) targetLanguage).audio.format =
      "wav".toList ∧
    (translateAudioBody base64Audio ("audio/webm".toList) targetLanguage).audio.format ≠
      "webm".toList :=
  ⟨rfl, rfl, by
    intro h
    have hwav : ("wav".toList : JStr) = "webm".toList := h
    exact absurd hwav (by decide)⟩

/-- Counterexample to C9 as stated: `0.5` is a possible output of
`Math.random()` and renders as `"0.i"` in base 36, whose
`substring(2, 15)` is the single character `"i"`; two such draws give a
2-character identifier, far below 20. -/
theorem generate_id_fallback_short_cex :
    (generateIdFallback ("0.i".toList) ("0.i".toList)).length < 20 := by
  decide

/-- C9 (amended): each `substring(2, 15)` window has at most 13
characters, and at least 10 once the rendering has at least 12 characters
(the typical case for `Math.random().toString(36)`); under that proviso
the fallback identifier has at least 20 characters, and in general at
most 26. -/
theorem generate_id_fallback_length (r1 r2 : JStr)
    (h1 : 12 ≤ r1.length) (h2 : 12 ≤ r2.length) :
    20 ≤ (generateIdFallback r1 r2).length ∧
    (generateIdFallback r1 r2).length ≤ 26 := by
  simp only [generateIdFallback, jsSubstring, List.length_append, List.length_take,
    List.length_drop]
  omega

/-- Witness for `generate_id_fallback_length` at two 12-character
renderings. -/
theorem generate_id_fallback_length_witness :
    20 ≤ (generateIdFallback ("0.abcdefghij".toList) ("0.4r5de2lk0qw".toList)).length ∧
    (generateIdFallback ("0.abcdefghij".toList) ("0.4r5de2lk0qw".toList)).length ≤ 26 :=
  generate_id_fallback_length _ _ (by decide) (by decide)

theorem extractTarget_of_no_brace (s : JStr)
    (h : jsIndexOfChar s '\x7b' = none ∨ jsLastIndexOfChar s '\x7d' = none) :
    extractTarget s = s := by
  rw [extractTarget]
  rcases h with h | h
  · rw [h]
  · rw [h]
    cases jsIndexOfChar s '\x7b' <;> rfl

/-- Counterexample to C6 as stated: the body `"[]"` contains no brace
pair, yet `parseAIResponse` returns the parsed empty array instead of
failing with the malformed-response error. -/
theorem parse_ai_response_no_brace_cex :
    ¬('\x7b' ∈ ("[]".toList)) ∧ ¬('\x7d' ∈ ("[]".toList)) ∧
    parseAIResponse ("[]".toList) = some (Json.arr []) ∧
    parseAIResponse ("[]".toList) ≠ none := by
  have hsome : parseAIResponse ("[]".toList) = some (Json.arr []) := by rfl
  refine ⟨by decide, by decide, hsome, ?_⟩
  rw [hsome]
  simp

/-- C6 (amended): the response parser strips code-fence markers, locates
the first `\x7b` and the last `\x7d` and parses exactly that substring
when both exist — in particular a body wrapped in three-backtick `json`
fences parses successfully, extracting only the enclosed object — and a
text containing no brace pair fails with the malformed-response error
unless the fence-stripped, trimmed text is itself already valid JSON
(such as a bare array), in which case its parsed value is returned. -/
theorem parse_ai_response_spec :
    parseAIResponse ("```json\n\x7b\"items\": []\x7d\n```".toList) =
      some (Json.obj [("items".toList, Json.arr [])]) ∧
    (∀ (content : JStr) (a b : Nat),
      jsIndexOfChar (cleanResponse content) '\x7b' = some a →
      jsLastIndexOfChar (cleanResponse content) '\x7d' = some b →
      parseAIResponse content = jsonParse (jsSubstring (cleanResponse content) a (b + 1))) ∧
    (∀ content : JStr,
      (jsIndexOfChar (cleanResponse content) '\x7b' = none ∨
        jsLastIndexOfChar (cleanResponse content) '\x7d' = none) →
      jsonParse (cleanResponse content) = none →
      parseAIResponse content = none) := by
  refine ⟨by rfl, ?_, ?_⟩
  · intro content a b ha hb
    rw [parseAIResponse, extractTarget, ha, hb]
  · intro content hbrace hparse
    rw [parseAIResponse, extractTarget_of_no_brace _ hbrace, hparse]

/-- Witness for `parse_ai_response_spec`: the fenced body again through
the substring clause, and the garbage body `"hello"` through the failure
clause. -/
theorem parse_ai_response_spec_witness :
    parseAIResponse ("```json\n\x7b\"items\": []\x7d\n```".toList) =
      jsonParse (jsSubstring (cleanResponse ("```json\n\x7b\"items\": []\x7d\n```".toList)) 0
        (12 + 1)) ∧
    parseAIResponse ("hello".toList) = none :=
  ⟨parse_ai_response_spec.2.1 ("```json\n\x7b\"items\": []\x7d\n```".toList) 0 12
      (by rfl) (by rfl),
   parse_ai_response_spec.2.2 ("hello".toList) (Or.inl (by rfl)) (by rfl)⟩
